import Mathlib

/-!
Shallow embedding of the node data reconciliation pipeline of
`gensyn_data_collector.py` (class `GensynDataCollector`), together with proofs
about the properties of its spec.

Network and clock effects are made explicit: each HTTP/RPC interaction is
modelled by the observable outcome the Python code branches on (status code,
JSON-parse success, extracted shape), supplied as an input to the embedded
function. Epoch timestamps are rationals (Python floats are exact on the
values involved: integer seconds, divisions by 1000 and 60); `int()` applied
to a float is truncation toward zero.
-/

namespace GensynCollector

/-- Python `int()` applied to a real-valued quotient: truncation toward zero. -/
def pyTrunc (q : ℚ) : ℤ := if 0 ≤ q then ⌊q⌋ else ⌈q⌉

/-- The all-zero sentinel address compared against in the source
(`"0x0000000000000000000000000000000000000000"`). -/
def zeroAddr : String := "0x0000000000000000000000000000000000000000"

/-! ## ActivityProbe: `get_last_internal_tx_time` -/

/-- The string value `str(tx[field])` of a present-and-truthy timestamp field,
classified the way the source branches on it: `num n` is a purely numeric
string (`timestamp_str.isdigit()`), carrying its integer value; `isoOk t` is a
non-numeric string that `datetime.fromisoformat` (after the `Z` replacement)
converts to epoch seconds `t`; `isoBad` is a non-numeric string on which that
conversion raises (swallowed by the `except: continue`). -/
inductive TsVal where
  | num (n : ℕ)
  | isoOk (t : ℚ)
  | isoBad
deriving DecidableEq

/-- Parsing one candidate timestamp field value, lines 163-170 of the source:
a digit string is epoch time, divided by 1000 exactly when it exceeds
`1000000000000`; otherwise the ISO conversion result (or failure). -/
def parseTsVal : TsVal → Option ℚ
  | .num n => some (if 1000000000000 < n then (n : ℚ) / 1000 else (n : ℚ))
  | .isoOk t => some t
  | .isoBad => none

/-- A transaction object: for each field name, `none` when the field is absent
or falsy (`if field in tx and tx[field]`), otherwise the field's value. -/
structure Tx where
  fields : String → Option TsVal

/-- The fixed priority list `timestamp_fields` of the source. -/
def timestamp_fields : List String :=
  ["timestamp", "block_timestamp", "created_at", "time", "block_time"]

/-- The inner `for field in timestamp_fields` loop: the first present,
truthy field whose value parses wins (`break` after a successful parse;
parse failure falls through to the next field). -/
def firstFieldTs (tx : Tx) : List String → Option ℚ
  | [] => none
  | f :: fs =>
    match tx.fields f with
    | none => firstFieldTs tx fs
    | some v =>
      match parseTsVal v with
      | some t => some t
      | none => firstFieldTs tx fs

/-- The timestamp contributed by one transaction item. -/
def txTimestamp (tx : Tx) : Option ℚ := firstFieldTs tx timestamp_fields

/-- One step of the `latest_timestamp` accumulator:
`if latest_timestamp is None or timestamp > latest_timestamp`. -/
def stepLatest (acc : Option ℚ) (tx : Tx) : Option ℚ :=
  match txTimestamp tx with
  | none => acc
  | some t =>
    match acc with
    | none => some t
    | some cur => if cur < t then some t else acc

/-- The `for tx in transactions` loop computing `latest_timestamp`. -/
def latestFold (txs : List Tx) : Option ℚ := txs.foldl stepLatest none

/-- Value found under one of the `possible_keys` of a dict response:
present but not a list, or a transaction list. -/
inductive KeyVal where
  | notList
  | txList (txs : List Tx)

/-- The parsed JSON body, as far as the extraction logic inspects it:
a bare list, a dict (keys looked up among `possible_keys`), or anything
else (leaves `transactions` empty). -/
inductive JBody where
  | arr (txs : List Tx)
  | obj (f : String → Option KeyVal)
  | other

/-- The fixed priority list `possible_keys` of the source. -/
def possible_keys : List String :=
  ["items", "transactions", "data", "result", "internal_transactions"]

/-- The `for key in possible_keys` loop: first key that is present with a
list value wins (`break`); otherwise `transactions` stays `[]`. -/
def firstKeyList (f : String → Option KeyVal) : List String → List Tx
  | [] => []
  | k :: ks =>
    match f k with
    | some (.txList l) => l
    | some .notList => firstKeyList f ks
    | none => firstKeyList f ks

/-- Transaction-list extraction from a parsed body (lines 145-153). -/
def extractTxs : JBody → List Tx
  | .arr txs => txs
  | .obj f => firstKeyList f possible_keys
  | .other => []

/-- Observable outcome of the GET against one endpoint: request exception or
non-200 status (`fail`), 200 with a body that is not JSON (`badJson`), or 200
with a parsed body. -/
inductive Resp where
  | fail
  | badJson
  | ok (b : JBody)

/-- What one endpoint's response contributes, mirroring the body of the
`for endpoint in api_endpoints` loop: the probe returns from inside the loop
exactly when the extracted transaction list is non-empty (`if transactions:`)
and the accumulated `latest_timestamp` is truthy (`if latest_timestamp:`,
which a latest timestamp of `0` fails); in every other case the loop advances
to the next endpoint. -/
def endpointVal (now : ℚ) : Resp → Option ℤ
  | .fail => none
  | .badJson => none
  | .ok b =>
    let txs := extractTxs b
    if txs.isEmpty then none
    else
      match latestFold txs with
      | none => none
      | some t => if t = 0 then none else some (pyTrunc ((now - t) / 60))

/-- The `for endpoint in api_endpoints` loop over the ordered responses. -/
def probeLoop (now : ℚ) : List Resp → Option ℤ
  | [] => none
  | r :: rest =>
    match endpointVal now r with
    | some m => some m
    | none => probeLoop now rest

/-- `get_last_internal_tx_time`: the guard on the address
(`if not eoa_address or eoa_address == "0x0000...0000"`), then the ordered
endpoint loop. `rs` lists the responses of the configured endpoints in
configured order; `now` is `time.time()`. -/
def get_last_internal_tx_time (eoa_address : String) (now : ℚ)
    (rs : List Resp) : Option ℤ :=
  if eoa_address = "" ∨ eoa_address = zeroAddr then none
  else probeLoop now rs

/-! ## ChainAddressResolver: `get_eoa_addresses_batch` -/

/-- The per-position value stored into the result dict (lines 98-105):
inside the returned array and not the zero sentinel, the address;
otherwise `None`. -/
def posVal (addrs : List String) (i : ℕ) : Option String :=
  match addrs.get? i with
  | some a => if a = zeroAddr then none else some a
  | none => none

/-- One Python dict assignment `result[k] = v` on a dict modelled as a
partial lookup function. -/
def dictInsert (d : String → Option (Option String)) (k : String)
    (v : Option String) : String → Option (Option String) :=
  fun q => if q = k then some v else d q

/-- The `for i in range(len(node_ids))` loop building the result dict:
later positions overwrite earlier ones sharing the same identity. -/
def buildDictFrom (addrs : List String) :
    ℕ → List String → (String → Option (Option String)) →
    String → Option (Option String)
  | _, [], d => d
  | i, node_id :: rest, d =>
    buildDictFrom addrs (i + 1) rest (dictInsert d node_id (posVal addrs i))

/-- Observable outcome of the batched contract interaction: contract object
never initialized (`if not self.contract`), the `.call()` raising
(RPC error / malformed ABI response), or a returned address array. -/
inductive ChainResult where
  | noContract
  | callError
  | ok (addrs : List String)

/-- `get_eoa_addresses_batch` as the lookup function of the returned dict:
`{}` when the contract is not initialized, `{node_id: None for ...}` when the
call raises, and the positionally-built dict on success. -/
def get_eoa_addresses_batch (node_ids : List String) :
    ChainResult → String → Option (Option String)
  | .noContract => fun _ => none
  | .callError => fun id => if id ∈ node_ids then some none else none
  | .ok addrs => buildDictFrom addrs 0 node_ids (fun _ => none)

/-- `eoa_addresses.get(node_id)`: dict lookup with default `None`. -/
def eoaGet (node_ids : List String) (res : ChainResult) (id : String) :
    Option String :=
  (get_eoa_addresses_batch node_ids res id).join

/-! ## NodeReconciler: `collect_node_data` -/

/-- The fields of a `get_peer_info` response body that the reconciler reads,
each `none` when the key is absent (so that the `.get(key, default)`
defaults apply). -/
structure PeerInfo where
  peerName : Option String
  score : Option ℤ
  reward : Option ℤ
  online : Option Bool

/-- One output record of `collect_node_data`. The source also stamps each
record with `datetime.now().isoformat()` (`observedAt`); wall-clock reading
is an effect outside the data flow the claims quantify over and is omitted. -/
structure NodeRecord where
  id : String
  name : String
  address : Option String
  reward : ℤ
  score : ℤ
  online : Bool
  last_tx_minutes_ago : Option ℤ

/-- Python truthiness of the looked-up address (`if eoa_address:`):
`None` and the empty string are falsy. -/
def addrTruthy : Option String → Bool
  | none => false
  | some a => a ≠ ""

/-- The `last_tx_minutes` computation of the available-status branch:
the probe runs only when the looked-up address is truthy. `probe` gives the
probe's result per address for the current cycle. -/
def lastTxOf (probe : String → Option ℤ) : Option String → Option ℤ
  | none => none
  | some a => if a = "" then none else probe a

/-- The default record synthesized when `get_peer_info` yields nothing truthy
(lines 208-217): name `UNKNOWN`, zero scores, offline, no activity; the
address lookup still happens. -/
def defaultRecord (g : String → Option String) (node_id : String) :
    NodeRecord :=
  { id := node_id, name := "UNKNOWN", address := g node_id, reward := 0,
    score := 0, online := false, last_tx_minutes_ago := none }

/-- The merged record of the available-status branch (lines 228-237), with
the deliberate cross-binding: API `score` feeds the record's `reward` (Wins)
and API `reward` feeds the record's `score` (Rewards). -/
def mergedRecord (g : String → Option String) (probe : String → Option ℤ)
    (pinfo : PeerInfo) (node_id : String) : NodeRecord :=
  { id := node_id
    name := pinfo.peerName.getD "Unknown"
    address := g node_id
    reward := pinfo.score.getD 0
    score := pinfo.reward.getD 0
    online := pinfo.online.getD false
    last_tx_minutes_ago := lastTxOf probe (g node_id) }

/-- Environment of one reconciliation cycle: the chain call outcome, the
`get_peer_info` outcome of the i-th loop iteration (`none` covers request
failure, bad JSON, and a falsy body, all of which take the default branch),
and the activity probe's result per address. -/
structure Env where
  chain : ChainResult
  peer : ℕ → Option PeerInfo
  probe : String → Option ℤ

/-- The record produced for the i-th roster entry. -/
def recordFor (env : Env) (g : String → Option String) (i : ℕ)
    (node_id : String) : NodeRecord :=
  match env.peer i with
  | none => defaultRecord g node_id
  | some pinfo => mergedRecord g env.probe pinfo node_id

/-- Trace of one cycle: the ordered records, the loop indices at which
`get_last_internal_tx_time` was invoked, and the loop indices after whose
processing `time.sleep(1)` ran. -/
structure CollectOut where
  results : List NodeRecord
  probeCalls : List ℕ
  sleeps : List ℕ

/-- The `for i, node_id in enumerate(node_ids)` loop of `collect_node_data`:
the unavailable branch appends the default record and `continue`s (skipping
both the probe and the sleep); the available branch merges, invokes the probe
when the address is truthy, and sleeps. -/
def collectFrom (env : Env) (g : String → Option String) :
    ℕ → List String → CollectOut
  | _, [] => ⟨[], [], []⟩
  | i, node_id :: rest =>
    let out := collectFrom env g (i + 1) rest
    match env.peer i with
    | none =>
      ⟨defaultRecord g node_id :: out.results, out.probeCalls, out.sleeps⟩
    | some pinfo =>
      ⟨mergedRecord g env.probe pinfo node_id :: out.results,
        (if addrTruthy (g node_id) then [i] else []) ++ out.probeCalls,
        i :: out.sleeps⟩

/-- `collect_node_data`: one batched address resolution, then the serial
loop over the roster. -/
def collect_node_data (env : Env) (node_ids : List String) : CollectOut :=
  collectFrom env (fun id => eoaGet node_ids env.chain id) 0 node_ids

/-- The status classification computed from `last_tx_minutes` (lines 241-247),
with the four emoji levels written as the spec's labels: black circle =
`unknown`, red = `stale`, yellow = `warning`, green = `healthy`. -/
def classifyActivity : Option ℤ → String
  | none => "unknown"
  | some m => if 30 < m then "stale" else if 15 < m then "warning" else "healthy"

/-! ## Concrete fixtures used to evaluate the embedding on specific inputs -/

/-- A transaction whose `timestamp` field is the digit string of `n`, with no
other timestamp field present. -/
def txS (n : ℕ) : Tx := ⟨fun f => if f = "timestamp" then some (.num n) else none⟩

/-- Cycle in which the chain call succeeds with two distinct non-zero
addresses and every status fetch succeeds with an empty body object. -/
def envC3 : Env :=
  ⟨ChainResult.ok ["0xaaa1", "0xaaa2"], fun _ => some ⟨none, none, none, none⟩,
    fun _ => none⟩

/-- Cycle in which the chain call succeeds with one non-zero address and
every status fetch fails. -/
def envC3w : Env :=
  ⟨ChainResult.ok ["0xbbb1"], fun _ => none, fun _ => none⟩

/-- Cycle in which the chain call raises, the first status fetch fails and
every later one succeeds. -/
def envC4 : Env :=
  ⟨ChainResult.callError,
    fun i => if i = 0 then none else some ⟨none, none, none, none⟩,
    fun _ => none⟩

/-- Cycle in which the chain call raises and every status fetch fails. -/
def envCallErr : Env :=
  ⟨ChainResult.callError, fun _ => none, fun _ => none⟩

/-- Cycle in which the contract was never initialized and every status fetch
fails. -/
def envNoPeer : Env :=
  ⟨ChainResult.noContract, fun _ => none, fun _ => none⟩

/-! ## Lemmas about the reconciler loop -/

lemma collectFrom_results_cons (env : Env) (g : String → Option String)
    (i : ℕ) (x : String) (l : List String) :
    (collectFrom env g i (x :: l)).results =
      recordFor env g i x :: (collectFrom env g (i + 1) l).results := by
  cases h : env.peer i <;> simp [collectFrom, recordFor, h]

lemma collectFrom_results_length (env : Env) (g : String → Option String) :
    ∀ (l : List String) (i : ℕ),
      (collectFrom env g i l).results.length = l.length := by
  intro l
  induction l with
  | nil => intro i; rfl
  | cons x l ih =>
    intro i
    rw [collectFrom_results_cons]
    simp [ih (i + 1)]

lemma collectFrom_results_getElem? (env : Env) (g : String → Option String) :
    ∀ (l : List String) (i j : ℕ),
      (collectFrom env g i l).results[j]? = (l[j]?).map (recordFor env g (i + j)) := by
  intro l
  induction l with
  | nil => intro i j; simp [collectFrom]
  | cons x l ih =>
    intro i j
    rw [collectFrom_results_cons]
    cases j with
    | zero => simp
    | succ j =>
      simp only [List.getElem?_cons_succ, ih (i + 1) j]
      have h : i + 1 + j = i + (j + 1) := by omega
      rw [h]

lemma recordFor_address (env : Env) (g : String → Option String)
    (i : ℕ) (node_id : String) :
    (recordFor env g i node_id).address = g node_id := by
  cases h : env.peer i <;> simp [recordFor, h, defaultRecord, mergedRecord]

lemma collect_address_at (env : Env) (ids : List String) (i : ℕ)
    (hi : i < ids.length) :
    ((collect_node_data env ids).results[i]?).map NodeRecord.address =
      some (eoaGet ids env.chain (ids.get ⟨i, hi⟩)) := by
  rw [collect_node_data, collectFrom_results_getElem?, List.getElem?_eq_getElem hi]
  simp [recordFor_address]

lemma recordFor_id (env : Env) (g : String → Option String)
    (i : ℕ) (node_id : String) :
    (recordFor env g i node_id).id = node_id := by
  cases h : env.peer i <;> simp [recordFor, h, defaultRecord, mergedRecord]

lemma mem_probeCalls_peer_isSome (env : Env) (g : String → Option String) :
    ∀ (l : List String) (i j : ℕ),
      j ∈ (collectFrom env g i l).probeCalls → (env.peer j).isSome := by
  intro l
  induction l with
  | nil => intro i j h; simp [collectFrom] at h
  | cons x l ih =>
    intro i j h
    cases hp : env.peer i with
    | none =>
      simp only [collectFrom, hp] at h
      exact ih (i + 1) j h
    | some pinfo =>
      simp only [collectFrom, hp, List.mem_append] at h
      rcases h with h | h
      · rcases hb : addrTruthy (g x) with _ | _ <;> simp [hb] at h
        rw [h, hp]
        rfl
      · exact ih (i + 1) j h

lemma mem_sleeps_iff (env : Env) (g : String → Option String) :
    ∀ (l : List String) (i j : ℕ),
      j ∈ (collectFrom env g i l).sleeps ↔
        (i ≤ j ∧ j < i + l.length ∧ (env.peer j).isSome) := by
  intro l
  induction l with
  | nil =>
    intro i j
    constructor
    · intro h; simp [collectFrom] at h
    · rintro ⟨h1, h2, _⟩; simp at h2; omega
  | cons x l ih =>
    intro i j
    cases hp : env.peer i with
    | none =>
      simp only [collectFrom, hp, ih (i + 1) j]
      constructor
      · rintro ⟨h1, h2, h3⟩
        exact ⟨by omega, by simp; omega, h3⟩
      · rintro ⟨h1, h2, h3⟩
        refine ⟨?_, by simp at h2; omega, h3⟩
        rcases Nat.eq_or_lt_of_le h1 with rfl | h
        · rw [hp] at h3; simp at h3
        · omega
    | some pinfo =>
      simp only [collectFrom, hp, List.mem_cons, ih (i + 1) j]
      constructor
      · rintro (rfl | ⟨h1, h2, h3⟩)
        · exact ⟨le_refl _, by simp, by rw [hp]; rfl⟩
        · exact ⟨by omega, by simp; omega, h3⟩
      · rintro ⟨h1, h2, h3⟩
        rcases Nat.eq_or_lt_of_le h1 with rfl | h
        · exact Or.inl rfl
        · exact Or.inr ⟨by omega, by simp at h2; omega, h3⟩

/-! ## Lemmas about the address dictionary -/

lemma buildDictFrom_notMem (addrs : List String) :
    ∀ (l : List String) (i : ℕ) (d : String → Option (Option String))
      (k : String), k ∉ l → buildDictFrom addrs i l d k = d k := by
  intro l
  induction l with
  | nil => intro i d k _; rfl
  | cons x l ih =>
    intro i d k hk
    simp only [List.mem_cons, not_or] at hk
    rw [buildDictFrom, ih (i + 1) _ k hk.2]
    simp [dictInsert, hk.1]

lemma buildDictFrom_last (addrs : List String) :
    ∀ (l : List String) (i : ℕ) (d : String → Option (Option String))
      (k : String) (j : ℕ) (hj : j < l.length),
      l.get ⟨j, hj⟩ = k →
      (∀ (m : ℕ) (hm : m < l.length), j < m → l.get ⟨m, hm⟩ ≠ k) →
      buildDictFrom addrs i l d k = some (posVal addrs (i + j)) := by
  intro l
  induction l with
  | nil => intro i d k j hj; simp at hj
  | cons x l ih =>
    intro i d k j hj hget hlast
    cases j with
    | zero =>
      have hx : x = k := hget
      have hnot : k ∉ l := by
        intro hmem
        rcases List.mem_iff_get.mp hmem with ⟨⟨m, hm⟩, hme⟩
        exact hlast (m + 1) (by simpa using Nat.succ_lt_succ hm)
          (Nat.succ_pos m) (by simpa using hme)
      rw [buildDictFrom, buildDictFrom_notMem addrs l (i + 1) _ k hnot]
      simp [dictInsert, hx]
    | succ j =>
      have hj2 : j < l.length := Nat.lt_of_succ_lt_succ hj
      have hget2 : l.get ⟨j, hj2⟩ = k := by simpa using hget
      have hlast2 : ∀ (m : ℕ) (hm : m < l.length), j < m → l.get ⟨m, hm⟩ ≠ k := by
        intro m hm hjm
        have := hlast (m + 1) (by simpa using Nat.succ_lt_succ hm)
          (Nat.succ_lt_succ hjm)
        simpa using this
      rw [buildDictFrom, ih (i + 1) _ k j hj2 hget2 hlast2]
      have h : i + 1 + j = i + (j + 1) := by omega
      rw [h]

lemma exists_last_occurrence :
    ∀ (l : List String) (k : String), k ∈ l →
      ∃ (j : ℕ) (hj : j < l.length), l.get ⟨j, hj⟩ = k ∧
        ∀ (m : ℕ) (hm : m < l.length), j < m → l.get ⟨m, hm⟩ ≠ k := by
  intro l
  induction l with
  | nil => intro k hk; simp at hk
  | cons x l ih =>
    intro k hk
    by_cases hmem : k ∈ l
    · rcases ih k hmem with ⟨j, hj, hget, hlast⟩
      refine ⟨j + 1, by simpa using Nat.succ_lt_succ hj, by simpa using hget, ?_⟩
      intro m hm hjm
      cases m with
      | zero => omega
      | succ m =>
        have hm2 : m < l.length := Nat.lt_of_succ_lt_succ hm
        have := hlast m hm2 (Nat.lt_of_succ_lt_succ hjm)
        simpa using this
    · have hx : x = k := by
        rcases List.mem_cons.mp hk with h | h
        · exact h.symm
        · exact absurd h hmem
      refine ⟨0, by simp, hx, ?_⟩
      intro m hm hpos
      cases m with
      | zero => omega
      | succ m =>
        have hm2 : m < l.length := Nat.lt_of_succ_lt_succ hm
        intro heq
        exact hmem (by rw [← heq]; simp)

lemma posVal_of_ge (addrs : List String) (j : ℕ) (h : addrs.length ≤ j) :
    posVal addrs j = none := by
  simp [posVal, List.getElem?_eq_none h]

/-! ## Lemmas about the activity probe -/

lemma probeLoop_cons (now : ℚ) (r : Resp) (rest : List Resp) :
    probeLoop now (r :: rest) =
      match endpointVal now r with
      | some m => some m
      | none => probeLoop now rest := rfl

lemma probeLoop_append_skip (now : ℚ) :
    ∀ (pre rest : List Resp), (∀ x ∈ pre, endpointVal now x = none) →
      probeLoop now (pre ++ rest) = probeLoop now rest := by
  intro pre
  induction pre with
  | nil => intro rest _; rfl
  | cons r pre ih =>
    intro rest h
    have hr : endpointVal now r = none := h r (List.mem_cons_self r pre)
    rw [List.cons_append, probeLoop_cons, hr]
    exact ih rest (fun x hx => h x (List.mem_cons_of_mem r hx))

lemma probeLoop_none_of_all_skip (now : ℚ) :
    ∀ (rs : List Resp), (∀ x ∈ rs, endpointVal now x = none) →
      probeLoop now rs = none := by
  intro rs h
  have := probeLoop_append_skip now rs [] h
  simpa using this

lemma latestFold_nil : latestFold [] = none := rfl

lemma foldl_stepLatest_spec :
    ∀ (l : List Tx) (acc : Option ℚ) (t : ℚ),
      l.foldl stepLatest acc = some t →
      (∀ x ∈ l.filterMap txTimestamp, x ≤ t) ∧
      (∀ c : ℚ, acc = some c → c ≤ t) ∧
      (t ∈ l.filterMap txTimestamp ∨ acc = some t) := by
  intro l
  induction l with
  | nil =>
    intro acc t h
    simp only [List.foldl_nil] at h
    refine ⟨by simp, ?_, Or.inr h⟩
    intro c hc
    rw [h] at hc
    exact le_of_eq (Option.some_injective ℚ hc).symm
  | cons tx l ih =>
    intro acc t h
    simp only [List.foldl_cons] at h
    rcases ih (stepLatest acc tx) t h with ⟨hub, hacc, hmem⟩
    cases htx : txTimestamp tx with
    | none =>
      have hstep : stepLatest acc tx = acc := by simp [stepLatest, htx]
      rw [hstep] at hacc hmem
      refine ⟨?_, hacc, ?_⟩
      · intro x hx
        rw [List.filterMap_cons_none htx] at hx
        exact hub x hx
      · rw [List.filterMap_cons_none htx]
        exact hmem
    | some u =>
      cases hac : acc with
      | none =>
        have hstep : stepLatest acc tx = some u := by simp [stepLatest, htx, hac]
        rw [hstep] at hacc hmem
        have hu : u ≤ t := hacc u rfl
        refine ⟨?_, by simp [hac], ?_⟩
        · intro x hx
          rw [List.filterMap_cons_some htx, List.mem_cons] at hx
          rcases hx with rfl | hx
          · exact hu
          · exact hub x hx
        · rw [List.filterMap_cons_some htx, List.mem_cons]
          rcases hmem with hmem | hmem
          · exact Or.inl (Or.inr hmem)
          · exact Or.inl (Or.inl (Option.some_injective ℚ hmem).symm)
      | some c0 =>
        by_cases hlt : c0 < u
        · have hstep : stepLatest acc tx = some u := by
            simp [stepLatest, htx, hac, hlt]
          rw [hstep] at hacc hmem
          have hu : u ≤ t := hacc u rfl
          refine ⟨?_, ?_, ?_⟩
          · intro x hx
            rw [List.filterMap_cons_some htx, List.mem_cons] at hx
            rcases hx with rfl | hx
            · exact hu
            · exact hub x hx
          · intro c hc
            rw [← Option.some_injective ℚ hc]
            exact le_trans (le_of_lt hlt) hu
          · rw [List.filterMap_cons_some htx, List.mem_cons]
            rcases hmem with hmem | hmem
            · exact Or.inl (Or.inr hmem)
            · exact Or.inl (Or.inl (Option.some_injective ℚ hmem).symm)
        · have hstep : stepLatest acc tx = some c0 := by
            simp [stepLatest, htx, hac, hlt]
          rw [hstep] at hacc hmem
          have hc0 : c0 ≤ t := hacc c0 rfl
          refine ⟨?_, ?_, ?_⟩
          · intro x hx
            rw [List.filterMap_cons_some htx, List.mem_cons] at hx
            rcases hx with rfl | hx
            · exact le_trans (le_of_not_lt hlt) hc0
            · exact hub x hx
          · intro c hc
            rw [← Option.some_injective ℚ hc]
            exact hc0
          · rw [List.filterMap_cons_some htx, List.mem_cons]
            rcases hmem with hmem | hmem
            · exact Or.inl (Or.inr hmem)
            · exact Or.inr hmem

lemma latestFold_max (txs : List Tx) (t : ℚ) (h : latestFold txs = some t) :
    t ∈ txs.filterMap txTimestamp ∧ ∀ x ∈ txs.filterMap txTimestamp, x ≤ t := by
  rcases foldl_stepLatest_spec txs none t h with ⟨hub, _, hmem⟩
  rcases hmem with hmem | hmem
  · exact ⟨hmem, hub⟩
  · simp at hmem

lemma latestFold_ne_none_of_nonempty (txs : List Tx) (t : ℚ)
    (h : latestFold txs = some t) : txs.isEmpty = false := by
  cases txs with
  | nil => simp [latestFold] at h
  | cons a l => rfl

lemma endpointVal_ok (now : ℚ) (b : JBody) (t : ℚ)
    (h : latestFold (extractTxs b) = some t) (ht : t ≠ 0) :
    endpointVal now (Resp.ok b) = some (pyTrunc ((now - t) / 60)) := by
  simp only [endpointVal]
  rw [latestFold_ne_none_of_nonempty _ t h]
  simp [h, ht]

/-! ## Claim theorems -/

/-- C2: for every non-empty roster, when the batched chain call fails — the
`.call()` raising (RPC error / malformed ABI response) or the contract never
initialized — `get_eoa_addresses_batch` yields a dict whose lookup is null
for every identity instead of raising, and consequently every record of the
cycle carries a null address, whatever the status-fetch outcomes. -/
theorem c2_chain_failure_degrades_all (env : Env) (ids : List String)
    (hne : ids ≠ [])
    (hfail : env.chain = ChainResult.callError ∨ env.chain = ChainResult.noContract) :
    (∀ id : String, eoaGet ids env.chain id = none) ∧
    ∀ r ∈ (collect_node_data env ids).results, r.address = none := by
  have hnull : ∀ id : String, eoaGet ids env.chain id = none := by
    intro id
    rcases hfail with h | h <;> rw [eoaGet, h, get_eoa_addresses_batch]
    · by_cases hm : id ∈ ids <;> simp [hm]
    · rfl
  refine ⟨hnull, ?_⟩
  intro r hr
  have hlen := collectFrom_results_length env
    (fun id => eoaGet ids env.chain id) ids 0
  rcases List.mem_iff_get.mp hr with ⟨⟨j, hj⟩, hje⟩
  have hj2 : j < ids.length := by
    rw [collect_node_data] at hj
    omega
  have h1 : ((collect_node_data env ids).results[j]?).map NodeRecord.address =
      some (eoaGet ids env.chain (ids.get ⟨j, hj2⟩)) :=
    collect_address_at env ids j hj2
  rw [List.getElem?_eq_getElem hj] at h1
  have h2 : (collect_node_data env ids).results.get ⟨j, hj⟩ =
      (collect_node_data env ids).results[j] := List.get_eq_getElem _ _
  rw [h2] at hje
  rw [hje] at h1
  rw [hnull] at h1
  exact Option.some_injective _ h1

/-- C5: every roster entry whose status fetch yields nothing truthy gets the
synthesized default record — name `UNKNOWN`, both score fields `0`, online
`false`, null activity — and the activity probe is never invoked at that
entry, whether or not an address was resolved for it. -/
theorem c5_unavailable_default_record (env : Env) (ids : List String)
    (i : ℕ) (hi : i < ids.length) (hp : env.peer i = none) :
    ((collect_node_data env ids).results[i]?).map NodeRecord.name = some "UNKNOWN" ∧
    ((collect_node_data env ids).results[i]?).map NodeRecord.reward = some 0 ∧
    ((collect_node_data env ids).results[i]?).map NodeRecord.score = some 0 ∧
    ((collect_node_data env ids).results[i]?).map NodeRecord.online = some false ∧
    ((collect_node_data env ids).results[i]?).map NodeRecord.last_tx_minutes_ago =
      some none ∧
    i ∉ (collect_node_data env ids).probeCalls := by
  have hget := collectFrom_results_getElem? env
    (fun id => eoaGet ids env.chain id) ids 0 i
  rw [List.getElem?_eq_getElem hi] at hget
  have hrec : recordFor env (fun id => eoaGet ids env.chain id) (0 + i) ids[i] =
      defaultRecord (fun id => eoaGet ids env.chain id) ids[i] := by
    have h0 : (0 : ℕ) + i = i := Nat.zero_add i
    rw [h0, recordFor, hp]
  have hres : (collect_node_data env ids).results[i]? =
      some (defaultRecord (fun id => eoaGet ids env.chain id) ids[i]) := by
    rw [collect_node_data, hget]
    simp only [Option.map_some']
    rw [hrec]
  refine ⟨?_, ?_, ?_, ?_, ?_, ?_⟩
  · rw [hres]; rfl
  · rw [hres]; rfl
  · rw [hres]; rfl
  · rw [hres]; rfl
  · rw [hres]; rfl
  · intro hmem
    have := mem_probeCalls_peer_isSome env
      (fun id => eoaGet ids env.chain id) ids 0 i hmem
    rw [hp] at this
    simp at this

/-- C7: a purely numeric timestamp string is treated as epoch time and is
divided by 1000 exactly when its value exceeds `10^12`; in particular the
13-digit value `1700000000000` is normalized to `1700000000` seconds before
the minutes-ago arithmetic runs on it. -/
theorem c7_millisecond_normalization :
    (∀ n : ℕ, 1000000000000 < n →
      parseTsVal (TsVal.num n) = some ((n : ℚ) / 1000)) ∧
    (∀ n : ℕ, n ≤ 1000000000000 →
      parseTsVal (TsVal.num n) = some ((n : ℚ))) ∧
    parseTsVal (TsVal.num 1700000000000) = some 1700000000 ∧
    ∀ now : ℚ, probeLoop now [Resp.ok (JBody.arr [txS 1700000000000])] =
      some (pyTrunc ((now - 1700000000) / 60)) := by
  have htx : txTimestamp (txS 1700000000000) = some 1700000000 := by
    norm_num [txTimestamp, firstFieldTs, timestamp_fields, txS, parseTsVal]
  refine ⟨?_, ?_, by norm_num [parseTsVal], ?_⟩
  · intro n h
    simp [parseTsVal, h]
  · intro n h
    have h2 : ¬ (1000000000000 < n) := by omega
    simp [parseTsVal, h2]
  · intro now
    norm_num [probeLoop, endpointVal, extractTxs, latestFold, stepLatest, htx]

/-- C7 witness: the normalization evaluated at concrete numeric strings on
each side of the threshold. -/
theorem c7_witness :
    parseTsVal (TsVal.num 2000000000000) = some 2000000000 ∧
    parseTsVal (TsVal.num 1000000000000) = some 1000000000000 := by
  constructor
  · have h := c7_millisecond_normalization.1 2000000000000 (by norm_num)
    rw [h]
    norm_num
  · exact c7_millisecond_normalization.2.1 1000000000000 (by norm_num)

/-- C8: the health classification is the stated pure function of
`last_tx_minutes_ago`: null is `unknown`, above 30 is `stale`, 16 through 30
is `warning`, at most 15 is `healthy`; in particular 47 is `stale`, exactly
30 is `warning` and exactly 15 is `healthy`. -/
theorem c8_health_classification :
    classifyActivity none = "unknown" ∧
    (∀ m : ℤ, 30 < m → classifyActivity (some m) = "stale") ∧
    (∀ m : ℤ, 16 ≤ m → m ≤ 30 → classifyActivity (some m) = "warning") ∧
    (∀ m : ℤ, m ≤ 15 → classifyActivity (some m) = "healthy") ∧
    classifyActivity (some 47) = "stale" ∧
    classifyActivity (some 30) = "warning" ∧
    classifyActivity (some 15) = "healthy" := by
  refine ⟨rfl, ?_, ?_, ?_, by decide, by decide, by decide⟩
  · intro m h
    simp [classifyActivity, h]
  · intro m h1 h2
    have hc1 : ¬ (30 < m) := by omega
    have hc2 : 15 < m := by omega
    simp [classifyActivity, hc1, hc2]
  · intro m h
    have hc1 : ¬ (30 < m) := by omega
    have hc2 : ¬ (15 < m) := by omega
    simp [classifyActivity, hc1, hc2]

/-- C8 witness: the classification bounds evaluated at the edges of each
band. -/
theorem c8_witness :
    classifyActivity (some 31) = "stale" ∧
    classifyActivity (some 16) = "warning" ∧
    classifyActivity (some (-5)) = "healthy" := by
  refine ⟨c8_health_classification.2.1 31 (by norm_num),
    c8_health_classification.2.2.1 16 (by norm_num) (by norm_num),
    c8_health_classification.2.2.2.1 (-5) (by norm_num)⟩

/-- C9: for every roster, of any length including zero, and every combination
of chain, status and activity outcomes, the reconciler emits exactly one
record per roster entry, in roster order (the i-th record's id is the i-th
roster identity). -/
theorem c9_one_record_per_entry_in_order (env : Env) (ids : List String) :
    (collect_node_data env ids).results.length = ids.length ∧
    ∀ (i : ℕ) (hi : i < ids.length),
      ((collect_node_data env ids).results[i]?).map NodeRecord.id =
        some (ids.get ⟨i, hi⟩) := by
  constructor
  · exact collectFrom_results_length env (fun id => eoaGet ids env.chain id) ids 0
  · intro i hi
    rw [collect_node_data, collectFrom_results_getElem?, List.getElem?_eq_getElem hi]
    simp [recordFor_id]

/-- C9 witness: the record count and ordering evaluated on a concrete
two-entry roster (and hypothesis-free on the empty roster via the same
theorem). -/
theorem c9_witness :
    (collect_node_data envNoPeer ["a", "b"]).results.length = 2 ∧
    ((collect_node_data envNoPeer ["a", "b"]).results[1]?).map NodeRecord.id =
      some "b" ∧
    (collect_node_data envNoPeer []).results.length = 0 := by
  refine ⟨(c9_one_record_per_entry_in_order envNoPeer ["a", "b"]).1,
    (c9_one_record_per_entry_in_order envNoPeer ["a", "b"]).2 1 (by decide),
    (c9_one_record_per_entry_in_order envNoPeer []).1⟩

/-- C10: when the chain call succeeds but the returned address array is
shorter than the roster, the dict still holds an entry for every identity
(lookup is total, nothing raises) and every identity whose position lies
beyond the array's length is mapped to null. -/
theorem c10_short_array_maps_null (ids addrs : List String) (i : ℕ)
    (hi : i < ids.length) (hlen : addrs.length ≤ i) :
    eoaGet ids (ChainResult.ok addrs) (ids.get ⟨i, hi⟩) = none ∧
    ∀ id ∈ ids, (get_eoa_addresses_batch ids (ChainResult.ok addrs) id).isSome := by
  constructor
  · have hk : ids.get ⟨i, hi⟩ ∈ ids := by
      rw [List.get_eq_getElem]
      exact List.getElem_mem hi
    rcases exists_last_occurrence ids (ids.get ⟨i, hi⟩) hk with ⟨j, hj, hget, hlast⟩
    have hij : i ≤ j := by
      by_contra hc
      push_neg at hc
      exact hlast i hi hc rfl
    have hdict := buildDictFrom_last addrs ids 0 (fun _ => none)
      (ids.get ⟨i, hi⟩) j hj hget hlast
    rw [eoaGet, get_eoa_addresses_batch, hdict, Nat.zero_add,
      posVal_of_ge addrs j (le_trans hlen hij)]
    rfl
  · intro id hid
    rcases exists_last_occurrence ids id hid with ⟨j, hj, hget, hlast⟩
    have hdict := buildDictFrom_last addrs ids 0 (fun _ => none) id j hj hget hlast
    rw [get_eoa_addresses_batch, hdict]
    rfl

/-- C10 witness: a two-entry roster against a one-address array; the second
identity looks up as null and both identities have dict entries. -/
theorem c10_witness :
    eoaGet ["a", "b"] (ChainResult.ok ["0x1"]) "b" = none := by
  exact (c10_short_array_maps_null ["a", "b"] ["0x1"] 1 (by decide) (by decide)).1

/-- C2 witness: a concrete one-entry roster under a raising chain call. -/
theorem c2_witness : eoaGet ["n"] ChainResult.callError "n" = none := by
  exact (c2_chain_failure_degrades_all envCallErr ["n"] (by decide) (Or.inl rfl)).1 "n"

/-- C5 witness: a concrete one-entry roster whose status fetch fails. -/
theorem c5_witness :
    ((collect_node_data envNoPeer ["x"]).results[0]?).map NodeRecord.name =
      some "UNKNOWN" ∧
    0 ∉ (collect_node_data envNoPeer ["x"]).probeCalls := by
  have h := c5_unavailable_default_record envNoPeer ["x"] 0 (by decide) rfl
  exact ⟨h.1, h.2.2.2.2.2⟩

/-- C1 counterexample: the claim says that on endpoint outcomes
[A fails, B is 200 with an empty list, C is 200 with one transaction] the
probe stops at B and returns null. In the code `if transactions:` is false
for an empty list, so B is fallen through and C's data is returned: at
`now = 1700000060` with C's transaction stamped `1700000000`, the probe
returns `some 1`, not `none`. -/
theorem c1_counterexample :
    get_last_internal_tx_time "0xabc" 1700000060
      [Resp.fail, Resp.ok (JBody.arr []), Resp.ok (JBody.arr [txS 1700000000])] =
      some 1 := by
  have h : ¬("0xabc" = "" ∨ "0xabc" = zeroAddr) := by decide
  unfold get_last_internal_tx_time
  rw [if_neg h]
  norm_num [probeLoop, endpointVal, extractTxs, latestFold, stepLatest, txTimestamp,
    firstFieldTs, timestamp_fields, txS, parseTsVal, pyTrunc]

/-- C1 amended: for a valid resolved address the probe walks the endpoint
responses in configured order and stops at the first endpoint that is 200
with a parseable body whose extracted transaction list is non-empty and
carries a truthy latest timestamp; endpoints whose response fails that test —
including a 200 with an empty extracted list — are skipped and later
endpoints are queried; endpoints after the first such success never influence
the result. -/
theorem c1_amended_stop_at_first_usable (addr : String) (now : ℚ)
    (pre : List Resp) (r : Resp) (post : List Resp) (m : ℤ)
    (haddr : ¬(addr = "" ∨ addr = zeroAddr))
    (hpre : ∀ x ∈ pre, endpointVal now x = none)
    (hr : endpointVal now r = some m) :
    get_last_internal_tx_time addr now (pre ++ r :: post) = some m := by
  unfold get_last_internal_tx_time
  rw [if_neg haddr, probeLoop_append_skip now pre (r :: post) hpre,
    probeLoop_cons, hr]

/-- C1 amended witness: one failing endpoint, then a usable one, then a
trailing endpoint that is never consulted. -/
theorem c1_amended_witness :
    get_last_internal_tx_time "0xabc" 1700000060
      [Resp.fail, Resp.ok (JBody.arr [txS 1700000000]), Resp.badJson] = some 1 := by
  refine c1_amended_stop_at_first_usable "0xabc" 1700000060 [Resp.fail]
    (Resp.ok (JBody.arr [txS 1700000000])) [Resp.badJson] 1 (by decide) ?_ ?_
  · intro x hx
    simp only [List.mem_singleton] at hx
    subst hx
    rfl
  · norm_num [endpointVal, extractTxs, latestFold, stepLatest, txTimestamp,
      firstFieldTs, timestamp_fields, txS, parseTsVal, pyTrunc]

/-- C6 counterexample: the first spec-successful endpoint (200, parseable,
bare list — here empty) yields no timestamp, so by the claim the probe
returns null; the code instead skips the empty list and returns the next
endpoint's data: `some 2` at `now = 1700000120` against a transaction
stamped `1700000000`. -/
theorem c6_counterexample :
    probeLoop 1700000120
      [Resp.ok (JBody.arr []), Resp.ok (JBody.arr [txS 1700000000])] = some 2 := by
  norm_num [probeLoop, endpointVal, extractTxs, latestFold, stepLatest, txTimestamp,
    firstFieldTs, timestamp_fields, txS, parseTsVal, pyTrunc]

/-- C6 amended: at the first endpoint whose extracted transaction list is
non-empty with a truthy latest timestamp `t`, the probe returns
`int((now - t) / 60)` where `t` is the maximum parseable per-transaction
timestamp of that list, a non-negative value whenever `t` is not in the
future; when every endpoint fails that test (no usable transaction set, or
no timestamp parses) the probe returns null. -/
theorem c6_amended_minutes_from_max_timestamp (now : ℚ) (pre : List Resp)
    (b : JBody) (post : List Resp) (t : ℚ)
    (hpre : ∀ x ∈ pre, endpointVal now x = none)
    (hlat : latestFold (extractTxs b) = some t) (ht : t ≠ 0) :
    (probeLoop now (pre ++ Resp.ok b :: post) = some (pyTrunc ((now - t) / 60)) ∧
      (t ≤ now → 0 ≤ pyTrunc ((now - t) / 60)) ∧
      t ∈ (extractTxs b).filterMap txTimestamp ∧
      ∀ x ∈ (extractTxs b).filterMap txTimestamp, x ≤ t) ∧
    ∀ rs : List Resp, (∀ x ∈ rs, endpointVal now x = none) →
      probeLoop now rs = none := by
  refine ⟨⟨?_, ?_, (latestFold_max _ t hlat).1, (latestFold_max _ t hlat).2⟩,
    probeLoop_none_of_all_skip now⟩
  · rw [probeLoop_append_skip now pre _ hpre, probeLoop_cons,
      endpointVal_ok now b t hlat ht]
  · intro hle
    have hq : (0 : ℚ) ≤ (now - t) / 60 := by
      apply div_nonneg (by linarith) (by norm_num)
    rw [pyTrunc, if_pos hq]
    exact Int.le_floor.mpr (by exact_mod_cast hq)

/-- C6 amended witness: a failing endpoint followed by a usable one. -/
theorem c6_amended_witness :
    probeLoop 1700000060 [Resp.fail, Resp.ok (JBody.arr [txS 1700000000])] =
      some (pyTrunc ((1700000060 - 1700000000) / 60)) ∧
    0 ≤ pyTrunc (((1700000060 : ℚ) - 1700000000) / 60) := by
  have h := c6_amended_minutes_from_max_timestamp 1700000060 [Resp.fail]
    (JBody.arr [txS 1700000000]) [] 1700000000
    (by intro x hx; simp only [List.mem_singleton] at hx; subst hx; rfl)
    (by norm_num [extractTxs, latestFold, stepLatest, txTimestamp, firstFieldTs,
      timestamp_fields, txS, parseTsVal])
    (by norm_num)
  exact ⟨h.1.1, h.1.2.1 (by norm_num)⟩

/-- C3 counterexample: roster ["p", "p"] with the contract returning the
distinct non-zero addresses "0xaaa1" (position 0) and "0xaaa2" (position 1).
The claim says occurrence 0 carries its own position's address "0xaaa1"; the
dict keyed by identity is overwritten by the later position, so both records
carry "0xaaa2". -/
theorem c3_counterexample :
    (collect_node_data envC3 ["p", "p"]).results.map NodeRecord.address =
      [some "0xaaa2", some "0xaaa2"] ∧
    (collect_node_data envC3 ["p", "p"]).results.map NodeRecord.address ≠
      [some "0xaaa1", some "0xaaa2"] := by
  constructor <;> decide

/-- C3 amended: occurrences of one identity are looked up in a dict keyed by
identity, so any two roster positions holding the same identity always carry
the same resolved address — namely, when the chain call succeeds, the
positional address of that identity's last roster occurrence (with the
zero sentinel mapped to null). -/
theorem c3_amended_last_occurrence_wins (env : Env) (ids : List String)
    (i j : ℕ) (hi : i < ids.length) (hj : j < ids.length)
    (hdup : ids.get ⟨i, hi⟩ = ids.get ⟨j, hj⟩) :
    ((collect_node_data env ids).results[i]?).map NodeRecord.address =
      ((collect_node_data env ids).results[j]?).map NodeRecord.address ∧
    ∀ addrs : List String, env.chain = ChainResult.ok addrs →
      (∀ (m : ℕ) (hm : m < ids.length), j < m →
        ids.get ⟨m, hm⟩ ≠ ids.get ⟨j, hj⟩) →
      ((collect_node_data env ids).results[j]?).map NodeRecord.address =
        some (posVal addrs j) := by
  constructor
  · rw [collect_address_at env ids i hi, collect_address_at env ids j hj, hdup]
  · intro addrs hchain hlast
    rw [collect_address_at env ids j hj, hchain, eoaGet, get_eoa_addresses_batch,
      buildDictFrom_last addrs ids 0 (fun _ => none) (ids.get ⟨j, hj⟩) j hj rfl hlast,
      Nat.zero_add]
    rfl

/-- C3 amended witness: a two-entry roster of distinct identities; the first
identity's record carries the positional address of its (only, hence last)
occurrence. -/
theorem c3_amended_witness :
    ((collect_node_data envC3w ["q", "r"]).results[0]?).map NodeRecord.address =
      some (posVal ["0xbbb1"] 0) := by
  refine (c3_amended_last_occurrence_wins envC3w ["q", "r"] 0 0
    (by decide) (by decide) rfl).2 ["0xbbb1"] rfl ?_
  intro m hm h0
  have hm1 : m = 1 := by
    simp at hm
    omega
  subst hm1
  show ("r" : String) ≠ "q"
  decide

/-- C4 counterexample: roster ["a", "b"] where entry 0's status fetch fails
and entry 1's succeeds. The claim requires one pacing delay between the
consecutive pair (0, 1), that is, after processing entry 0; the code's
`continue` in the unavailable branch skips `time.sleep(1)`, so no delay
occurs there. -/
theorem c4_counterexample :
    0 ∉ (collect_node_data envC4 ["a", "b"]).sleeps := by
  decide

/-- C4 amended: the reconciler sleeps one time unit after processing exactly
those roster entries whose status fetch succeeded — including the last entry,
and never after an entry whose status fetch was unavailable — so consecutive
entries are separated by a delay precisely when the earlier entry's status
fetch succeeded. -/
theorem c4_amended_sleep_iff_status_ok (env : Env) (ids : List String)
    (j : ℕ) (hj : j < ids.length) :
    j ∈ (collect_node_data env ids).sleeps ↔ (env.peer j).isSome := by
  rw [collect_node_data, mem_sleeps_iff]
  constructor
  · rintro ⟨_, _, h⟩
    exact h
  · intro h
    exact ⟨Nat.zero_le j, by omega, h⟩

/-- C4 amended witness: in the counterexample cycle the delay runs after the
available entry 1 (even though it is the last entry). -/
theorem c4_amended_witness :
    1 ∈ (collect_node_data envC4 ["a", "b"]).sleeps := by
  exact (c4_amended_sleep_iff_status_ok envC4 ["a", "b"] 1 (by decide)).mpr (by decide)

end GensynCollector
